import Mathlib

/-!
Verification of the derived-metrics core of `streamlit_visualizer.py`.

A shallow embedding of the data-access and derived-metrics logic of
`src/streamlit_visualizer.py`: loading the two CSV tables, filtering the
scoreboard by a selection (team subset plus inclusive week range),
the cumulative win-percentage series, the head-to-head win matrix and the
head-to-head average-points table.  Table rows become Lean structures,
dataframes become lists of rows, floating-point scores become rationals,
and the script's `for ... iterrows()` loops become left folds over the row
list.  The theorems below settle the specification's claims about this
code.
-/

/-- One row of `master_scoreboard.csv` as the script reads it: the columns
`week`, `manager_nickname`, `matchup_id`, `team_points`, `team_key` and
`winner_team_key`. -/
structure Row where
  week : Nat
  manager_nickname : String
  matchup_id : Nat
  team_points : ℚ
  team_key : String
  winner_team_key : String
deriving DecidableEq

/-- One row of `master_rosters.csv` as the script reads it: the columns
`week`, `manager_name`, `full_name`, `roster_position` and the optional
`team_abbr`. -/
structure RosterRow where
  week : Nat
  manager_name : String
  full_name : String
  roster_position : String
  team_abbr : Option String
deriving DecidableEq

/-- The script's `load_data` (lines 19–27): both `pd.read_csv` calls sit in one `try`
block, and a `FileNotFoundError` from either makes the function return
`(None, None)`.  The filesystem is modelled by the two optional file
contents; `none` stands for a missing file, whose read raises. -/
def load_data (rosters_file : Option (List RosterRow))
    (scoreboard_file : Option (List Row)) :
    Option (List RosterRow) × Option (List Row) :=
  match rosters_file with
  | none => (none, none)
  | some rosters_df =>
    match scoreboard_file with
    | none => (none, none)
    | some scoreboard_df => (some rosters_df, some scoreboard_df)

/-- The script's `filtered_scoreboard` (lines 52–55): keep the rows whose
`manager_nickname` is among the selected teams and whose `week` lies in the
inclusive slider range. -/
def filtered_scoreboard (scoreboard_df : List Row)
    (selected_teams : List String) (lo hi : Nat) : List Row :=
  scoreboard_df.filter fun r =>
    selected_teams.contains r.manager_nickname && (lo ≤ r.week && r.week ≤ hi)

/-- The boolean win flag of line 87,
`(team_data['winner_team_key'] == team_data['team_key']).astype(int)`. -/
def wins (r : Row) : Nat := if r.winner_team_key = r.team_key then 1 else 0

/-- Running (inclusive) sums, line 88's `cumsum()`. -/
def cumulative_wins : List Nat → Nat → List Nat
  | [], _ => []
  | w :: ws, acc => (acc + w) :: cumulative_wins ws (acc + w)

/-- Lines 88–90: pair each record's cumulative win count with its 1-based
games-played index and scale to a percentage. -/
def win_percentage (team_data : List Row) : List ℚ :=
  (cumulative_wins (team_data.map wins) 0).zipWith
    (fun (c k : Nat) => ((c : ℚ) / (k : ℚ)) * 100) (List.range' 1 team_data.length)

/-- Line 86: one team's filtered records sorted by ascending `week`. -/
def team_data (filtered : List Row) (team : String) : List Row :=
  (filtered.filter fun r => r.manager_nickname == team).mergeSort
    fun a b => a.week ≤ b.week

/-- Lines 84–91: the per-team `(week, manager_nickname, win_percentage)`
series accumulated in the `win_data` list. -/
def win_data (filtered : List Row) (selected_teams : List String) :
    List (List (Nat × String × ℚ)) :=
  selected_teams.map fun team =>
    ((team_data filtered team).zip (win_percentage (team_data filtered team))).map
      fun x => (x.1.week, team, x.2)

/-- Line 94: `win_df = pd.concat(win_data)`. -/
def win_df (filtered : List Row) (selected_teams : List String) :
    List (Nat × String × ℚ) :=
  (win_data filtered selected_teams).flatten

/-- The `week_matchups` lookup of lines 198–201 and 232–235: the rows of
the (filtered) `matchups` table sharing a row's `(week, matchup_id)`. -/
def week_matchups (matchups : List Row) (w mid : Nat) : List Row :=
  matchups.filter fun r => r.week == w && r.matchup_id == mid

/-- Line 208: the participant with the strictly greater `team_points` wins;
on exact equality the `else` branch picks `team2`. -/
def winnerOf (team1 team2 : Row) : String :=
  if team1.team_points > team2.team_points then team1.manager_nickname
  else team2.manager_nickname

/-- Line 209: the loser is whichever nickname the winner is not. -/
def loserOf (team1 team2 : Row) : String :=
  if winnerOf team1 team2 = team1.manager_nickname then team2.manager_nickname
  else team1.manager_nickname

/-- Line 211, `win_matrix.loc[winner, loser] += 1`, on a matrix represented
as a function from (row label, column label) to count. -/
def bump (acc : String → String → Nat) (winner loser : String) :
    String → String → Nat :=
  fun a b => if a = winner ∧ b = loser then acc a b + 1 else acc a b

/-- One iteration of the win-matrix loop (lines 197–211): look up the row's
matchup group in the filtered table; when it has exactly two rows and both
nicknames are selected, record a win for the higher score, else leave the
matrix unchanged. -/
def winMatrixStep (matchups : List Row) (selected_teams : List String)
    (acc : String → String → Nat) (row : Row) : String → String → Nat :=
  match week_matchups matchups row.week row.matchup_id with
  | [team1, team2] =>
    if selected_teams.contains team1.manager_nickname &&
        selected_teams.contains team2.manager_nickname then
      bump acc (winnerOf team1 team2) (loserOf team1 team2)
    else acc
  | _ => acc

/-- Lines 194–211: the head-to-head win matrix, a fold of `winMatrixStep`
over every row of the filtered table (the loop visits each row of a
resolved pair, once per participant). -/
def win_matrix (matchups : List Row) (selected_teams : List String) :
    String → String → Nat :=
  matchups.foldl (winMatrixStep matchups selected_teams) (fun _ _ => 0)

/-- One directed head-to-head record of lines 242–251. -/
structure H2HRecord where
  team : String
  opponent : String
  points : ℚ
deriving DecidableEq

/-- One iteration of the `h2h_points` loop (lines 231–251): for a resolved
group append the two directed `(team, opponent, points)` records. -/
def h2hStep (matchups : List Row) (selected_teams : List String)
    (acc : List H2HRecord) (row : Row) : List H2HRecord :=
  match week_matchups matchups row.week row.matchup_id with
  | [team1, team2] =>
    if selected_teams.contains team1.manager_nickname &&
        selected_teams.contains team2.manager_nickname then
      acc ++ [⟨team1.manager_nickname, team2.manager_nickname, team1.team_points⟩,
              ⟨team2.manager_nickname, team1.manager_nickname, team2.team_points⟩]
    else acc
  | _ => acc

/-- Lines 229–251: the `h2h_points` record list, folded over every row. -/
def h2h_points (matchups : List Row) (selected_teams : List String) :
    List H2HRecord :=
  matchups.foldl (h2hStep matchups selected_teams) []

/-- Line 255: `groupby(['team', 'opponent'])['points'].mean()`, read off as
a function of the group key. -/
def avg_h2h (h2h_df : List H2HRecord) (team opponent : String) : ℚ :=
  let pts := (h2h_df.filter fun h =>
    h.team == team && h.opponent == opponent).map H2HRecord.points
  pts.sum / (pts.length : ℚ)

/-- The claim's resolution predicate: the row's matchup group in the
filtered table has exactly two rows and both participants are selected. -/
def resolves (matchups : List Row) (selected_teams : List String) (row : Row) : Prop :=
  ∃ team1 team2,
    week_matchups matchups row.week row.matchup_id = [team1, team2] ∧
    selected_teams.contains team1.manager_nickname = true ∧
    selected_teams.contains team2.manager_nickname = true

/-- Every matchup group of the table pairs two distinct nicknames. -/
def distinctPair (g : List Row) : Bool :=
  match g with
  | [team1, team2] => team1.manager_nickname != team2.manager_nickname
  | _ => true

/-- The key a row's matchup group is looked up by. -/
def pairKey (r : Row) : Nat × Nat := (r.week, r.matchup_id)

/-- The two directed records a matchup-group key contributes when its group
resolves, nothing otherwise. -/
def pairRecords (matchups : List Row) (selected_teams : List String)
    (k : Nat × Nat) : List H2HRecord :=
  match week_matchups matchups k.1 k.2 with
  | [team1, team2] =>
    if selected_teams.contains team1.manager_nickname &&
        selected_teams.contains team2.manager_nickname then
      [⟨team1.manager_nickname, team2.manager_nickname, team1.team_points⟩,
       ⟨team2.manager_nickname, team1.manager_nickname, team2.team_points⟩]
    else []
  | _ => []

/-- The reference construction the specification describes for the
head-to-head averages: per distinct resolved matchup group emit exactly two
directed records, once each. -/
def spec_h2h (matchups : List Row) (selected_teams : List String) :
    List H2HRecord :=
  ((matchups.map pairKey).dedup.map (pairRecords matchups selected_teams)).flatten

/-- The spec's fixed example, period 1: A beats B 100–90. -/
def rowA1 : Row := ⟨1, "A", 1, 100, "kA", "kA"⟩

/-- The spec's fixed example, period 1, B's side. -/
def rowB1 : Row := ⟨1, "B", 1, 90, "kB", "kA"⟩

/-- The spec's fixed example, period 2: C beats A 80–70. -/
def rowC2 : Row := ⟨2, "C", 1, 80, "kC", "kC"⟩

/-- The spec's fixed example, period 2, A's side. -/
def rowA2 : Row := ⟨2, "A", 1, 70, "kA", "kC"⟩

/-- The spec's fixed example scoreboard. -/
def exampleScoreboard : List Row := [rowA1, rowB1, rowC2, rowA2]

/-- The spec's fixed example selection: entities A, B, C. -/
def exampleTeams : List String := ["A", "B", "C"]

/-- The spec's fixed example after filtering to periods 1–2. -/
def exampleFiltered : List Row :=
  filtered_scoreboard exampleScoreboard exampleTeams 1 2

/-- A tied matchup: both sides score 50 points. -/
def tieRow1 : Row := ⟨1, "A", 1, 50, "kA", "kA"⟩

/-- The second row of the tied matchup. -/
def tieRow2 : Row := ⟨1, "B", 1, 50, "kB", "kA"⟩

/-- A one-row roster table used as a concrete loaded file. -/
def exampleRosters : List RosterRow := [⟨1, "A", "Player One", "QB", some "SF"⟩]

/-- C1: the spec says every resolved pair increments `matrix[winner][loser]`
by exactly 1, so on the fixed example `matrix[A][B] = 1` and
`matrix[C][A] = 1`.  Evaluating the code's loop shows each resolved pair is
processed once per participating row, so both cells hold 2 (and the cell
sum is 4, twice the number of resolved matchups); all other cells are 0. -/
theorem win_matrix_example_double_counts :
    win_matrix exampleFiltered exampleTeams "A" "B" = 2 ∧
    win_matrix exampleFiltered exampleTeams "C" "A" = 2 ∧
    win_matrix exampleFiltered exampleTeams "A" "A" = 0 ∧
    win_matrix exampleFiltered exampleTeams "A" "C" = 0 ∧
    win_matrix exampleFiltered exampleTeams "B" "A" = 0 ∧
    win_matrix exampleFiltered exampleTeams "B" "B" = 0 ∧
    win_matrix exampleFiltered exampleTeams "B" "C" = 0 ∧
    win_matrix exampleFiltered exampleTeams "C" "B" = 0 ∧
    win_matrix exampleFiltered exampleTeams "C" "C" = 0 := by
  decide

/-- C5 counterexample: with the roster file present and the scoreboard file
missing, `load_data` returns `(None, None)`; the loaded roster table is not
accessible, contrary to the claim of independent load attempts. -/
theorem load_data_drops_present_table :
    (load_data (some exampleRosters) none).1 = none ∧
    load_data (some exampleRosters) none = (none, none) := by
  exact ⟨rfl, rfl⟩

/-- C5 amended: when either input file is missing, `load_data` returns both
tables absent, an explicit no-data state rather than a crash; the surviving
file's table is not made accessible. -/
theorem load_data_either_missing_gives_no_data :
    ∀ (rosters_file : Option (List RosterRow))
      (scoreboard_file : Option (List Row)),
      load_data rosters_file none = (none, none) ∧
      load_data none scoreboard_file = (none, none) := by
  intro rf sf
  refine ⟨?_, rfl⟩
  cases rf <;> rfl

/-- C10: `load_data` is all-or-nothing: either both reads succeed and both
tables are returned, or the result is `(None, None)`; never exactly one
table. -/
theorem load_data_all_or_nothing :
    ∀ (rosters_file : Option (List RosterRow))
      (scoreboard_file : Option (List Row)),
      load_data rosters_file scoreboard_file = (none, none) ∨
      ∃ rosters_df scoreboard_df,
        rosters_file = some rosters_df ∧ scoreboard_file = some scoreboard_df ∧
        load_data rosters_file scoreboard_file =
          (some rosters_df, some scoreboard_df) := by
  intro rf sf
  cases rf with
  | none => exact Or.inl rfl
  | some r =>
    cases sf with
    | none => exact Or.inl rfl
    | some s => exact Or.inr ⟨r, s, rfl, rfl, rfl⟩

/-- C3: the filter returns exactly the rows of the input whose nickname is
selected and whose week lies in the inclusive range: the output is a
sublist of the input (subset, original order, no reordering), every kept
row satisfies the predicate, every input row satisfying the predicate is
kept, and multiplicities are preserved (no deduplication). -/
theorem filtered_scoreboard_exact :
    ∀ (scoreboard_df : List Row) (selected_teams : List String) (lo hi : Nat),
      (filtered_scoreboard scoreboard_df selected_teams lo hi).Sublist scoreboard_df ∧
      (∀ r ∈ filtered_scoreboard scoreboard_df selected_teams lo hi,
        selected_teams.contains r.manager_nickname = true ∧
        lo ≤ r.week ∧ r.week ≤ hi) ∧
      (∀ r ∈ scoreboard_df,
        selected_teams.contains r.manager_nickname = true →
        lo ≤ r.week → r.week ≤ hi →
        r ∈ filtered_scoreboard scoreboard_df selected_teams lo hi) ∧
      (∀ r : Row,
        selected_teams.contains r.manager_nickname = true →
        lo ≤ r.week → r.week ≤ hi →
        (filtered_scoreboard scoreboard_df selected_teams lo hi).count r =
          scoreboard_df.count r) := by
  intro df sel lo hi
  refine ⟨List.filter_sublist df, ?_, ?_, ?_⟩
  · intro r hr
    have := List.mem_filter.mp hr
    simpa [Bool.and_eq_true, decide_eq_true_eq] using this.2
  · intro r hr h1 h2 h3
    refine List.mem_filter.mpr ⟨hr, ?_⟩
    simp [Bool.and_eq_true, decide_eq_true_eq, h2, h3,
      List.mem_of_elem_eq_true h1]
  · intro r h1 h2 h3
    refine List.count_filter ?_
    simp [Bool.and_eq_true, decide_eq_true_eq, h2, h3,
      List.mem_of_elem_eq_true h1]

/-- C9: the derived computations are pure and idempotent: filtering an
already-filtered table with the same selection changes nothing, so every
derived table recomputed from the refiltered input equals the one computed
from the filtered input. -/
theorem derived_tables_idempotent :
    ∀ (scoreboard_df : List Row) (selected_teams : List String) (lo hi : Nat),
      filtered_scoreboard (filtered_scoreboard scoreboard_df selected_teams lo hi)
          selected_teams lo hi =
        filtered_scoreboard scoreboard_df selected_teams lo hi ∧
      win_matrix (filtered_scoreboard
            (filtered_scoreboard scoreboard_df selected_teams lo hi)
            selected_teams lo hi) selected_teams =
        win_matrix (filtered_scoreboard scoreboard_df selected_teams lo hi)
          selected_teams ∧
      h2h_points (filtered_scoreboard
            (filtered_scoreboard scoreboard_df selected_teams lo hi)
            selected_teams lo hi) selected_teams =
        h2h_points (filtered_scoreboard scoreboard_df selected_teams lo hi)
          selected_teams ∧
      win_df (filtered_scoreboard
            (filtered_scoreboard scoreboard_df selected_teams lo hi)
            selected_teams lo hi) selected_teams =
        win_df (filtered_scoreboard scoreboard_df selected_teams lo hi)
          selected_teams := by
  intro df sel lo hi
  have h : filtered_scoreboard (filtered_scoreboard df sel lo hi) sel lo hi =
      filtered_scoreboard df sel lo hi := by
    unfold filtered_scoreboard
    rw [List.filter_filter]
    exact List.filter_congr fun x _ => Bool.and_self _
  exact ⟨h, by rw [h], by rw [h], by rw [h]⟩

/-- Helper: running sums have the length of their input. -/
theorem cumulative_wins_length (ws : List Nat) :
    ∀ acc, (cumulative_wins ws acc).length = ws.length := by
  induction ws with
  | nil => intro acc; rfl
  | cons w ws ih => intro acc; simp [cumulative_wins, ih]

/-- Helper: the i-th running sum is the start value plus the sum of the
first i + 1 entries. -/
theorem cumulative_wins_get :
    ∀ (ws : List Nat) (acc i : Nat) (h : i < (cumulative_wins ws acc).length),
      (cumulative_wins ws acc).get ⟨i, h⟩ = acc + (ws.take (i + 1)).sum := by
  intro ws
  induction ws with
  | nil => intro acc i h; simp [cumulative_wins] at h
  | cons w ws ih =>
    intro acc i h
    cases i with
    | zero => simp [cumulative_wins]
    | succ i =>
      have h2 : i < (cumulative_wins ws (acc + w)).length := by
        simpa [cumulative_wins] using h
      have := ih (acc + w) i h2
      simp only [cumulative_wins, List.get_cons_succ, this, List.take_succ_cons,
        List.sum_cons]
      ring

/-- Helper: the i-th win percentage is the win count over the first i + 1
records divided by i + 1, as a percentage. -/
theorem win_percentage_get :
    ∀ (l : List Row) (i : Nat) (h : i < (win_percentage l).length),
      (win_percentage l).get ⟨i, h⟩ =
        ((((l.take (i + 1)).map wins).sum : ℚ) / ((i : ℚ) + 1)) * 100 := by
  intro l i h
  have hlen : (win_percentage l).length = l.length := by
    unfold win_percentage
    rw [List.length_zipWith, cumulative_wins_length, List.length_map,
      List.length_range']
    exact Nat.min_self _
  have hi : i < l.length := hlen ▸ h
  have hc : i < (cumulative_wins (l.map wins) 0).length := by
    rw [cumulative_wins_length, List.length_map]
    exact hi
  have hr : i < (List.range' 1 l.length).length := by
    rw [List.length_range']
    exact hi
  have hz : (win_percentage l).get ⟨i, h⟩ =
      (((cumulative_wins (l.map wins) 0).get ⟨i, hc⟩ : ℚ) /
        ((List.range' 1 l.length).get ⟨i, hr⟩ : ℚ)) * 100 := by
    simp only [win_percentage, List.get_eq_getElem]
    exact List.getElem_zipWith
  have hcv : (cumulative_wins (l.map wins) 0).get ⟨i, hc⟩ =
      0 + ((l.map wins).take (i + 1)).sum := cumulative_wins_get _ 0 i hc
  have hrv : (List.range' 1 l.length).get ⟨i, hr⟩ = 1 + 1 * i := by
    simpa [List.get_eq_getElem] using List.getElem_range' i hr
  rw [hz, hcv, hrv, ← List.map_take]
  push_cast
  ring

/-- C2: for every entity, the cumulative win-percentage sequence over its
filtered records sorted by ascending week has, at 0-based position i, the
value (wins among the first i + 1 records) / (i + 1) × 100, and every value
lies in the interval from 0 to 100. -/
theorem cumulative_win_percentage_correct :
    ∀ (filtered : List Row) (team : String)
      (i : Fin (win_percentage (team_data filtered team)).length),
      (win_percentage (team_data filtered team)).get i =
        ((((team_data filtered team).take (i.1 + 1)).map wins).sum : ℚ) /
          ((i.1 : ℚ) + 1) * 100 ∧
      0 ≤ (win_percentage (team_data filtered team)).get i ∧
      (win_percentage (team_data filtered team)).get i ≤ 100 := by
  intro filtered team i
  obtain ⟨i, h⟩ := i
  have hv := win_percentage_get (team_data filtered team) i h
  refine ⟨hv, ?_, ?_⟩
  · rw [hv]
    positivity
  · rw [hv]
    set l := team_data filtered team with hl
    have hsum : (((l.take (i + 1)).map wins).sum : ℕ) ≤ i + 1 := by
      have h1 : ((l.take (i + 1)).map wins).sum ≤
          ((l.take (i + 1)).map wins).length • 1 := by
        refine List.sum_le_card_nsmul _ 1 ?_
        intro x hx
        obtain ⟨r, _, rfl⟩ := List.mem_map.mp hx
        unfold wins
        split <;> omega
      have h2 : ((l.take (i + 1)).map wins).length ≤ i + 1 := by
        simp [List.length_take]
      simpa using h1.trans (by simpa using h2)
    have hk : (0 : ℚ) < (i : ℚ) + 1 := by positivity
    have hdiv : ((((l.take (i + 1)).map wins).sum : ℚ)) / ((i : ℚ) + 1) ≤ 1 := by
      rw [div_le_one hk]
      exact_mod_cast hsum
    calc ((((l.take (i + 1)).map wins).sum : ℚ)) / ((i : ℚ) + 1) * 100
        ≤ 1 * 100 := by
          exact mul_le_mul_of_nonneg_right hdiv (by norm_num)
      _ = 100 := by norm_num

/-- C4: one loop iteration contributes to the win matrix and to the
head-to-head record list exactly when the row's (week, matchup_id) group in
the filtered table has exactly two rows whose nicknames are both selected;
every other group leaves both outputs unchanged (silently skipped, no
error path exists). -/
theorem resolved_groups_contribute :
    ∀ (matchups : List Row) (selected_teams : List String)
      (acc : String → String → Nat) (l : List H2HRecord) (row : Row),
      (resolves matchups selected_teams row →
        winMatrixStep matchups selected_teams acc row ≠ acc ∧
        h2hStep matchups selected_teams l row ≠ l) ∧
      (¬ resolves matchups selected_teams row →
        winMatrixStep matchups selected_teams acc row = acc ∧
        h2hStep matchups selected_teams l row = l) := by
  intro m sel acc l row
  cases hwm : week_matchups m row.week row.matchup_id with
  | nil =>
    refine ⟨fun hres => absurd hres ?_, fun _ => ?_⟩
    · rintro ⟨ta, tb, hg, -, -⟩
      rw [hwm] at hg
      exact List.noConfusion hg
    · constructor <;> simp [winMatrixStep, h2hStep, hwm]
  | cons t1 tl =>
    cases tl with
    | nil =>
      refine ⟨fun hres => absurd hres ?_, fun _ => ?_⟩
      · rintro ⟨ta, tb, hg, -, -⟩
        rw [hwm] at hg
        simp at hg
      · constructor <;> simp [winMatrixStep, h2hStep, hwm]
    | cons t2 tl2 =>
      cases tl2 with
      | cons t3 tl3 =>
        refine ⟨fun hres => absurd hres ?_, fun _ => ?_⟩
        · rintro ⟨ta, tb, hg, -, -⟩
          rw [hwm] at hg
          simp at hg
        · constructor <;> simp [winMatrixStep, h2hStep, hwm]
      | nil =>
        cases hb : (sel.contains t1.manager_nickname &&
            sel.contains t2.manager_nickname) with
        | true =>
          have hmem : t1.manager_nickname ∈ sel ∧ t2.manager_nickname ∈ sel := by
            simpa using hb
          have hb1 : sel.contains t1.manager_nickname = true := by
            simpa using hmem.1
          have hb2 : sel.contains t2.manager_nickname = true := by
            simpa using hmem.2
          refine ⟨fun _ => ⟨?_, ?_⟩, fun hn => absurd ⟨t1, t2, hwm, hb1, hb2⟩ hn⟩
          · have hstep : winMatrixStep m sel acc row =
                bump acc (winnerOf t1 t2) (loserOf t1 t2) := by
              simp [winMatrixStep, hwm, hmem.1, hmem.2]
            rw [hstep]
            intro heq
            have hcell := congrFun (congrFun heq (winnerOf t1 t2)) (loserOf t1 t2)
            simp [bump] at hcell
          · have hstep : h2hStep m sel l row = l ++
                [⟨t1.manager_nickname, t2.manager_nickname, t1.team_points⟩,
                 ⟨t2.manager_nickname, t1.manager_nickname, t2.team_points⟩] := by
              simp [h2hStep, hwm, hmem.1, hmem.2]
            rw [hstep]
            intro heq
            have hlen := congrArg List.length heq
            simp at hlen
        | false =>
          have hb' : t1.manager_nickname ∈ sel → t2.manager_nickname ∉ sel := by
            simpa using hb
          have hni : ¬ (t1.manager_nickname ∈ sel ∧ t2.manager_nickname ∈ sel) :=
            fun hx => hb' hx.1 hx.2
          refine ⟨fun hres => ?_, fun _ => ?_⟩
          · exfalso
            obtain ⟨ta, tb, hg, hc1, hc2⟩ := hres
            rw [hwm] at hg
            obtain ⟨rfl, rfl⟩ : t1 = ta ∧ t2 = tb := by
              simpa using hg
            exact hni ⟨List.mem_of_elem_eq_true hc1, List.mem_of_elem_eq_true hc2⟩
          · constructor <;> simp [winMatrixStep, h2hStep, hwm, hni]

/-- Helper: when the two participants carry distinct nicknames, the
recorded winner and loser differ. -/
theorem winner_ne_loser :
    ∀ team1 team2 : Row,
      team1.manager_nickname ≠ team2.manager_nickname →
      winnerOf team1 team2 ≠ loserOf team1 team2 := by
  intro t1 t2 hne
  unfold loserOf
  by_cases hw : winnerOf t1 t2 = t1.manager_nickname
  · rw [if_pos hw, hw]
    exact hne
  · rw [if_neg hw]
    exact hw

/-- C6: for a resolved pair the matrix records a win for the participant
with strictly greater points; the loser is the other one; and on exactly
equal points the second row of the group is recorded as the winner and the
first as the loser. -/
theorem tie_recorded_for_second_row :
    ∀ (matchups : List Row) (selected_teams : List String)
      (acc : String → String → Nat) (row team1 team2 : Row),
      week_matchups matchups row.week row.matchup_id = [team1, team2] →
      selected_teams.contains team1.manager_nickname = true →
      selected_teams.contains team2.manager_nickname = true →
      team1.manager_nickname ≠ team2.manager_nickname →
      winMatrixStep matchups selected_teams acc row =
        bump acc (winnerOf team1 team2) (loserOf team1 team2) ∧
      (team1.team_points > team2.team_points →
        winnerOf team1 team2 = team1.manager_nickname ∧
        loserOf team1 team2 = team2.manager_nickname) ∧
      (¬ team1.team_points > team2.team_points →
        winnerOf team1 team2 = team2.manager_nickname ∧
        loserOf team1 team2 = team1.manager_nickname) ∧
      (team1.team_points = team2.team_points →
        winnerOf team1 team2 = team2.manager_nickname ∧
        loserOf team1 team2 = team1.manager_nickname) := by
  intro m sel acc row t1 t2 hwm hc1 hc2 hne
  have hgt : ∀ h : t1.team_points > t2.team_points,
      winnerOf t1 t2 = t1.manager_nickname ∧
      loserOf t1 t2 = t2.manager_nickname := by
    intro h
    have hw : winnerOf t1 t2 = t1.manager_nickname := by
      unfold winnerOf
      rw [if_pos h]
    exact ⟨hw, by unfold loserOf; rw [if_pos hw]⟩
  have hle : ∀ _ : ¬ t1.team_points > t2.team_points,
      winnerOf t1 t2 = t2.manager_nickname ∧
      loserOf t1 t2 = t1.manager_nickname := by
    intro h
    have hw : winnerOf t1 t2 = t2.manager_nickname := by
      unfold winnerOf
      rw [if_neg h]
    refine ⟨hw, ?_⟩
    unfold loserOf
    rw [if_neg]
    rw [hw]
    exact fun hx => hne hx.symm
  refine ⟨?_, hgt, hle, fun heq => hle (by rw [heq]; exact lt_irrefl _)⟩
  simp [winMatrixStep, hwm, List.mem_of_elem_eq_true hc1,
    List.mem_of_elem_eq_true hc2]

/-- C6 witness: on a concrete 50–50 tie, the step records the second row's
nickname as the winner and the first row's as the loser. -/
theorem tie_recorded_witness :
    winMatrixStep [tieRow1, tieRow2] ["A", "B"] (fun _ _ => 0) tieRow1 =
      bump (fun _ _ => 0) (winnerOf tieRow1 tieRow2) (loserOf tieRow1 tieRow2) ∧
    winnerOf tieRow1 tieRow2 = "B" ∧ loserOf tieRow1 tieRow2 = "A" := by
  have h := tie_recorded_for_second_row [tieRow1, tieRow2] ["A", "B"]
    (fun _ _ => 0) tieRow1 tieRow1 tieRow2 (by decide) (by decide) (by decide)
    (by decide)
  have htie : tieRow1.team_points = tieRow2.team_points := by decide
  exact ⟨h.1, (h.2.2.2 htie).1, (h.2.2.2 htie).2⟩

/-- Helper: a single loop step keeps the matrix diagonal at zero when the
row's group does not pair a nickname with itself. -/
theorem winMatrixStep_diag :
    ∀ (matchups : List Row) (selected_teams : List String)
      (acc : String → String → Nat) (row : Row),
      distinctPair (week_matchups matchups row.week row.matchup_id) = true →
      (∀ t, acc t t = 0) →
      ∀ t, winMatrixStep matchups selected_teams acc row t t = 0 := by
  intro m sel acc row hd hacc t
  cases hwm : week_matchups m row.week row.matchup_id with
  | nil => simp [winMatrixStep, hwm, hacc]
  | cons t1 tl =>
    cases tl with
    | nil => simp [winMatrixStep, hwm, hacc]
    | cons t2 tl2 =>
      cases tl2 with
      | cons t3 tl3 => simp [winMatrixStep, hwm, hacc]
      | nil =>
        have hne : t1.manager_nickname ≠ t2.manager_nickname := by
          rw [hwm] at hd
          simpa [distinctPair] using hd
        cases hb : (sel.contains t1.manager_nickname &&
            sel.contains t2.manager_nickname) with
        | false =>
          have hb' : t1.manager_nickname ∈ sel → t2.manager_nickname ∉ sel := by
            simpa using hb
          have hni : ¬ (t1.manager_nickname ∈ sel ∧ t2.manager_nickname ∈ sel) :=
            fun hx => hb' hx.1 hx.2
          simp [winMatrixStep, hwm, hni, hacc]
        | true =>
          have hmem : t1.manager_nickname ∈ sel ∧ t2.manager_nickname ∈ sel := by
            simpa using hb
          have hstep : winMatrixStep m sel acc row =
              bump acc (winnerOf t1 t2) (loserOf t1 t2) := by
            simp [winMatrixStep, hwm, hmem.1, hmem.2]
          rw [hstep]
          unfold bump
          rw [if_neg]
          · exact hacc t
          · rintro ⟨h1, h2⟩
            exact winner_ne_loser t1 t2 hne (h1.symm.trans h2)

/-- Helper: the whole fold keeps the diagonal at zero. -/
theorem win_matrix_diag_aux :
    ∀ (matchups : List Row) (selected_teams : List String) (l : List Row)
      (acc : String → String → Nat),
      (∀ row ∈ l,
        distinctPair (week_matchups matchups row.week row.matchup_id) = true) →
      (∀ t, acc t t = 0) →
      ∀ t, (l.foldl (winMatrixStep matchups selected_teams) acc) t t = 0 := by
  intro m sel l
  induction l with
  | nil => intro acc _ hacc t; exact hacc t
  | cons row rows ih =>
    intro acc hl hacc t
    simp only [List.foldl_cons]
    exact ih _ (fun r hr => hl r (List.mem_cons_of_mem _ hr))
      (winMatrixStep_diag m sel acc row (hl row (List.mem_cons_self _ _)) hacc) t

/-- C7: when every matchup group of the table pairs two distinct nicknames,
the win matrix is zero on its diagonal, and every cell is a non-negative
integer. -/
theorem win_matrix_diagonal_zero :
    ∀ (matchups : List Row) (selected_teams : List String),
      (∀ row ∈ matchups,
        distinctPair (week_matchups matchups row.week row.matchup_id) = true) →
      (∀ t, win_matrix matchups selected_teams t t = 0) ∧
      (∀ a b, (0 : ℤ) ≤ (win_matrix matchups selected_teams a b : ℤ)) := by
  intro m sel hd
  exact ⟨fun t => win_matrix_diag_aux m sel m (fun _ _ => 0) hd (fun _ => rfl) t,
    fun a b => Int.natCast_nonneg _⟩

/-- C7 witness: on the spec's fixed example the diagonal cell (A, A) is 0
and the cell (A, B) is non-negative. -/
theorem win_matrix_diagonal_witness :
    win_matrix exampleFiltered exampleTeams "A" "A" = 0 ∧
    (0 : ℤ) ≤ (win_matrix exampleFiltered exampleTeams "A" "B" : ℤ) := by
  have h := win_matrix_diagonal_zero exampleFiltered exampleTeams (by decide)
  exact ⟨h.1 "A", h.2 "A" "B"⟩

/-- Helper: one head-to-head loop iteration appends exactly the records
determined by the row's matchup-group key. -/
theorem h2hStep_eq_append :
    ∀ (matchups : List Row) (selected_teams : List String)
      (acc : List H2HRecord) (row : Row),
      h2hStep matchups selected_teams acc row =
        acc ++ pairRecords matchups selected_teams (pairKey row) := by
  intro m sel acc row
  cases hwm : week_matchups m row.week row.matchup_id with
  | nil => simp [h2hStep, pairRecords, pairKey, hwm]
  | cons t1 tl =>
    cases tl with
    | nil => simp [h2hStep, pairRecords, pairKey, hwm]
    | cons t2 tl2 =>
      cases tl2 with
      | cons t3 tl3 => simp [h2hStep, pairRecords, pairKey, hwm]
      | nil =>
        simp only [h2hStep, pairRecords, pairKey, hwm]
        split
        · rfl
        · rw [List.append_nil]

/-- Helper: the head-to-head fold is the concatenation, over all rows, of
each row's key's records. -/
theorem h2h_points_flatten :
    ∀ (matchups : List Row) (selected_teams : List String) (l : List Row)
      (init : List H2HRecord),
      l.foldl (h2hStep matchups selected_teams) init =
        init ++ (l.map fun row =>
          pairRecords matchups selected_teams (pairKey row)).flatten := by
  intro m sel l
  induction l with
  | nil => intro init; simp
  | cons row rows ih =>
    intro init
    simp only [List.foldl_cons, List.map_cons, List.flatten_cons]
    rw [h2hStep_eq_append, ih, List.append_assoc]

/-- Helper: the number of rows sharing a key equals the length of that
key's matchup group. -/
theorem countP_pairKey_eq_length :
    ∀ (matchups : List Row) (k : Nat × Nat),
      (matchups.map pairKey).countP (fun x => x == k) =
        (week_matchups matchups k.1 k.2).length := by
  intro m k
  rw [List.countP_map, List.countP_eq_length_filter]
  unfold week_matchups
  have hpred : ∀ r ∈ m, ((fun x => x == k) ∘ pairKey) r =
      (r.week == k.1 && r.matchup_id == k.2) := by
    intro r _
    show (pairKey r == k) = _
    cases k
    rfl
  rw [List.filter_congr hpred]

/-- Helper: a sum over a list regrouped by value, weighted by occurrence
counts. -/
theorem sum_map_eq_sum_countP {α M : Type} [DecidableEq α] [BEq α] [LawfulBEq α]
    [AddCommMonoid M] (l : List α) (f : α → M) :
    (l.map f).sum = ∑ k ∈ l.toFinset, l.countP (fun x => x == k) • f k := by
  rw [Finset.sum_list_map_count l f]
  refine Finset.sum_congr rfl fun k _ => ?_
  have hc : @List.count α instBEqOfDecidableEq k l =
      l.countP (fun x => x == k) := by
    rw [@List.count_eq_countP α instBEqOfDecidableEq k l]
    refine List.countP_congr fun x _ => ?_
    exact ⟨fun h => beq_iff_eq.mpr (of_decide_eq_true h),
      fun h => decide_eq_true (beq_iff_eq.mp h)⟩
  rw [hc]

/-- Helper: filtered point sums and lengths distribute over concatenation. -/
theorem filter_measures_flatten (p : H2HRecord → Bool) :
    ∀ L : List (List H2HRecord),
      ((L.flatten.filter p).map H2HRecord.points).sum =
        (L.map fun recs => ((recs.filter p).map H2HRecord.points).sum).sum ∧
      (L.flatten.filter p).length =
        (L.map fun recs => (recs.filter p).length).sum := by
  intro L
  induction L with
  | nil => simp
  | cons recs L ih =>
    constructor
    · simp only [List.flatten_cons, List.filter_append, List.map_append,
        List.sum_append, List.map_cons, List.sum_cons]
      rw [ih.1]
    · simp only [List.flatten_cons, List.filter_append, List.length_append,
        List.map_cons, List.sum_cons]
      rw [ih.2]

/-- Helper: deduplicating a list does not change its finset of elements. -/
theorem dedup_toFinset {α : Type} [DecidableEq α] (l : List α) :
    l.dedup.toFinset = l.toFinset := by
  ext a
  simp [List.mem_toFinset, List.mem_dedup]

/-- C8: for every ordered pair (team, opponent), the code's head-to-head
average equals the one of the specification's reference construction (two
directed records per distinct resolved matchup group, grouped by
(team, opponent) and averaged): the loop visits each resolved group once
per participating row, duplicating every record, which leaves the mean
unchanged. -/
theorem avg_h2h_matches_spec :
    ∀ (matchups : List Row) (selected_teams : List String) (team opponent : String),
      avg_h2h (h2h_points matchups selected_teams) team opponent =
        avg_h2h (spec_h2h matchups selected_teams) team opponent := by
  intro m sel team opp
  have hcode : h2h_points m sel =
      ((m.map pairKey).map (pairRecords m sel)).flatten := by
    unfold h2h_points
    rw [h2h_points_flatten m sel m [], List.nil_append, List.map_map]
    rfl
  have hspec : spec_h2h m sel =
      ((m.map pairKey).dedup.map (pairRecords m sel)).flatten := rfl
  set p : H2HRecord → Bool := fun h => h.team == team && h.opponent == opp with hp
  set S : Nat × Nat → ℚ :=
    fun k => (((pairRecords m sel k).filter p).map H2HRecord.points).sum with hS
  set N : Nat × Nat → ℕ :=
    fun k => ((pairRecords m sel k).filter p).length with hN
  set kl : List (Nat × Nat) := m.map pairKey with hkl
  have hkey : ∀ k : Nat × Nat,
      kl.countP (fun x => x == k) • S k = 2 * S k ∧
      kl.countP (fun x => x == k) • N k = 2 * N k := by
    intro k
    cases hwm : week_matchups m k.1 k.2 with
    | nil =>
      have hg0 : pairRecords m sel k = [] := by simp [pairRecords, hwm]
      constructor <;> simp [hS, hN, hg0]
    | cons t1 tl =>
      cases tl with
      | nil =>
        have hg0 : pairRecords m sel k = [] := by simp [pairRecords, hwm]
        constructor <;> simp [hS, hN, hg0]
      | cons t2 tl2 =>
        cases tl2 with
        | cons t3 tl3 =>
          have hg0 : pairRecords m sel k = [] := by simp [pairRecords, hwm]
          constructor <;> simp [hS, hN, hg0]
        | nil =>
          have hcount : kl.countP (fun x => x == k) = 2 := by
            rw [hkl, countP_pairKey_eq_length, hwm]
            rfl
          rw [hcount]
          constructor
          · rw [nsmul_eq_mul]
            norm_num
          · rw [smul_eq_mul]
  have hScode : (((h2h_points m sel).filter p).map H2HRecord.points).sum =
      2 * ((kl.dedup.map S).sum) := by
    rw [hcode]
    rw [(filter_measures_flatten p ((m.map pairKey).map (pairRecords m sel))).1]
    rw [List.map_map]
    have h2 : (kl.dedup.map S).sum = ∑ k ∈ kl.toFinset, S k := by
      rw [← dedup_toFinset kl]
      exact (List.sum_toFinset S (List.nodup_dedup kl)).symm
    calc ((m.map pairKey).map
            ((fun recs => ((recs.filter p).map H2HRecord.points).sum) ∘
              pairRecords m sel)).sum
        = (kl.map S).sum := by rw [hkl]; rfl
      _ = ∑ k ∈ kl.toFinset, kl.countP (fun x => x == k) • S k :=
          sum_map_eq_sum_countP kl S
      _ = ∑ k ∈ kl.toFinset, 2 * S k :=
          Finset.sum_congr rfl fun k _ => (hkey k).1
      _ = 2 * ∑ k ∈ kl.toFinset, S k := (Finset.mul_sum _ _ _).symm
      _ = 2 * (kl.dedup.map S).sum := by rw [h2]
  have hNcode : ((h2h_points m sel).filter p).length =
      2 * ((kl.dedup.map N).sum) := by
    rw [hcode]
    rw [(filter_measures_flatten p ((m.map pairKey).map (pairRecords m sel))).2]
    rw [List.map_map]
    have h2 : (kl.dedup.map N).sum = ∑ k ∈ kl.toFinset, N k := by
      rw [← dedup_toFinset kl]
      exact (List.sum_toFinset N (List.nodup_dedup kl)).symm
    calc ((m.map pairKey).map
            ((fun recs => (recs.filter p).length) ∘ pairRecords m sel)).sum
        = (kl.map N).sum := by rw [hkl]; rfl
      _ = ∑ k ∈ kl.toFinset, kl.countP (fun x => x == k) • N k :=
          sum_map_eq_sum_countP kl N
      _ = ∑ k ∈ kl.toFinset, 2 * N k :=
          Finset.sum_congr rfl fun k _ => (hkey k).2
      _ = 2 * ∑ k ∈ kl.toFinset, N k := (Finset.mul_sum _ _ _).symm
      _ = 2 * (kl.dedup.map N).sum := by rw [h2]
  have hSspec : (((spec_h2h m sel).filter p).map H2HRecord.points).sum =
      (kl.dedup.map S).sum := by
    rw [hspec]
    rw [(filter_measures_flatten p ((m.map pairKey).dedup.map (pairRecords m sel))).1]
    rw [List.map_map]
    rw [hkl]
    rfl
  have hNspec : ((spec_h2h m sel).filter p).length = (kl.dedup.map N).sum := by
    rw [hspec]
    rw [(filter_measures_flatten p ((m.map pairKey).dedup.map (pairRecords m sel))).2]
    rw [List.map_map]
    rw [hkl]
    rfl
  show (((h2h_points m sel).filter p).map H2HRecord.points).sum /
      ((((h2h_points m sel).filter p).map H2HRecord.points).length : ℚ) =
    (((spec_h2h m sel).filter p).map H2HRecord.points).sum /
      ((((spec_h2h m sel).filter p).map H2HRecord.points).length : ℚ)
  rw [List.length_map, List.length_map, hScode, hNcode, hSspec, hNspec]
  push_cast
  exact mul_div_mul_left _ _ two_ne_zero
